import Mathlib

/-!
Verification of the numerical cores of a pair of image-processing demos:
a solarization tool (cubic tone curve fitted from two control points and
applied per pixel) and an orientation-histogram visualizer (magnitude
weighted soft histogram of gradient phase).

The Python sources are embedded shallowly:
* exact pixel values and curve coefficients are modelled over `ℚ`;
* float computations whose NaN/Inf behaviour matters are modelled over
  `FVal := Option ℚ`, where `none` stands for NaN or ±Inf;
* the histogram, which is about real cosines, is modelled over `ℝ`.
-/

namespace Solarization

/-- A tone curve `f x = a * (x - x0)^3 - b * x + c`, as produced by
`PolynomialSelectionWidget._updatePolynomial`. -/
structure ToneCurve where
  a : ℚ
  b : ℚ
  c : ℚ
  x0 : ℚ
deriving DecidableEq, Repr

/-- Exact-arithmetic translation of the coefficient computation in
`PolynomialSelectionWidget._updatePolynomial`:

    dx = maxX - minX;  if dx == 0: dx = 0.001
    dy = maxY - minY
    x0 = (minX + maxX) / 2
    a  = -2 * dy / dx**3
    b  = -3 * dy / (2 * dx)
    c  = (minY + maxY) / 2 + b * x0
-/
def fitToneCurve (minX minY maxX maxY : ℚ) : ToneCurve :=
  let dx : ℚ := if maxX - minX = 0 then 1/1000 else maxX - minX
  let dy : ℚ := maxY - minY
  let x0 : ℚ := (minX + maxX) / 2
  let a : ℚ := -2 * dy / dx^3
  let b : ℚ := -3 * dy / (2 * dx)
  let c : ℚ := (minY + maxY) / 2 + b * x0
  ⟨a, b, c, x0⟩

/-- The fitted polynomial `lambda x: a * (x - x0)**3 - b * x + c`. -/
def evalCurve (t : ToneCurve) (x : ℚ) : ℚ :=
  t.a * (x - t.x0)^3 - t.b * x + t.c

/-- Truncation toward zero, the C/C++ float-to-integer conversion rule used
by numpy when storing a Python float into an integer array. -/
def qtrunc (q : ℚ) : ℤ :=
  if 0 ≤ q then ⌊q⌋ else ⌈q⌉

/-- numpy's conversion of a float to `np.uint8` (as performed by
`np.vectorize(p, otypes=[np.uint8])` in `_updateSolarization`): truncate
toward zero, then reduce modulo 256. -/
def castU8 (q : ℚ) : ℤ :=
  qtrunc q % 256

/-- The per-pixel solarization transform applied on commit
(`SolarizationMainWindow._updateSolarization`): evaluate the fitted
polynomial at the input pixel value and store the result into a
`np.uint8` array. -/
def applySolarization (minX minY maxX maxY v : ℚ) : ℤ :=
  castU8 (evalCurve (fitToneCurve minX minY maxX maxY) v)

/-- The transform the specification prescribes:
`clamp(round(f(input)), 0, 255)`. -/
def specPixel (minX minY maxX maxY v : ℚ) : ℤ :=
  min 255 (max 0 (round (evalCurve (fitToneCurve minX minY maxX maxY) v)))

/-! ### NaN-aware float model

`FVal` models an IEEE double: `none` stands for NaN or ±Inf, `some q` for a
finite value (rounding error is not modelled).  The only operations in the
tone-curve fitter that can produce a non-finite value from finite operands
are divisions with zero divisor. -/

/-- A float value: `none` models NaN/±Inf. -/
abbrev FVal : Type := Option ℚ

/-- Float addition: any non-finite operand poisons the result. -/
def fadd : FVal → FVal → FVal
  | some a, some b => some (a + b)
  | _, _ => none

/-- Float subtraction. -/
def fsub : FVal → FVal → FVal
  | some a, some b => some (a - b)
  | _, _ => none

/-- Float multiplication. -/
def fmul : FVal → FVal → FVal
  | some a, some b => some (a * b)
  | _, _ => none

/-- Float division: division by zero yields NaN or ±Inf (`none`). -/
def fdiv : FVal → FVal → FVal
  | some a, some b => if b = 0 then none else some (a / b)
  | _, _ => none

/-- The coefficient computation of `_updatePolynomial` with float-faithful
(NaN-aware) division; returns `(a, b, c)` and the (always finite) `x0`. -/
def fitToneCurveF (minX minY maxX maxY : ℚ) : FVal × FVal × FVal × ℚ :=
  let dx : ℚ := if maxX - minX = 0 then 1/1000 else maxX - minX
  let dy : ℚ := maxY - minY
  let x0 : ℚ := (minX + maxX) / 2
  let a : FVal := fdiv (some (-2 * dy)) (some (dx^3))
  let b : FVal := fdiv (some (-3 * dy)) (some (2 * dx))
  let c : FVal := fadd (some ((minY + maxY) / 2)) (fmul b (some x0))
  (a, b, c, x0)

/-- Evaluation of the fitted polynomial in the float model. -/
def evalCurveF (t : FVal × FVal × FVal × ℚ) (x : ℚ) : FVal :=
  fadd (fsub (fmul t.1 (some ((x - t.2.2.2)^3))) (fmul t.2.1 (some x))) t.2.2.1

/-! ### CLI argument validation (`__main__` of solarization.py) -/

/-- Parsed command-line arguments of the solarization tool. -/
structure Args where
  interactive : Bool
  low : Option ℤ
  high : Option ℤ
deriving DecidableEq, Repr

/-- Translation of the argument validation in `__main__`:

    if not args.interactive:
        if args.low is None or args.high is None:
            sys.exit(1)          # after a message on stderr
    else:
        if not args.low is None and args.high is None:
            sys.exit(1)          # after a message on stderr

Returns `some 1` when the program exits with status 1 at this point (having
printed to stderr, before any window is created) and `none` when it
proceeds. -/
def validateArgs (a : Args) : Option ℕ :=
  if !a.interactive then
    if a.low = none ∨ a.high = none then some 1 else none
  else
    if a.low ≠ none ∧ a.high = none then some 1 else none

/-- The validation rule as the claim states it: the program accepts exactly
one of {interactive alone, (low together with high)}; every other
combination (neither, low without high, interactive combined with low
and/or high) exits with status 1. -/
def exactlyOneMode (a : Args) : Prop :=
  (a.interactive = true ∧ a.low = none ∧ a.high = none) ∨
  (a.interactive = false ∧ a.low ≠ none ∧ a.high ≠ none)

instance (a : Args) : Decidable (exactlyOneMode a) := by
  unfold exactlyOneMode; infer_instance

end Solarization

namespace OrientationHistograms

/-! ### Grayscale conversion (`matToGrayscale`) -/

/-- numpy dtypes relevant to `matToGrayscale`'s dispatch. -/
inductive Dtype where
  | u8
  | u16
  | f32
  | f64
deriving DecidableEq, Repr

/-- The shape of a numpy image array: 2-dimensional `(h, w)` or
3-dimensional `(h, w, c)`. -/
inductive Shape where
  | twoD (h w : ℕ)
  | threeD (h w c : ℕ)
deriving DecidableEq, Repr

/-- An image at the level of detail `matToGrayscale`'s dispatch inspects:
dtype and shape. -/
structure Mat where
  dtype : Dtype
  shape : Shape
deriving DecidableEq, Repr

/-- The error kind the specification calls `UnsupportedImageType`; the
source raises `ValueError("unsupported image type for grayscale
conversion")`. -/
inductive GrayscaleError where
  | unsupportedImageType
deriving DecidableEq, Repr

/-- Translation of `matToGrayscale`'s dispatch:

    if mat.dtype == np.uint8:
        if len(mat.shape) == 2: return mat
        if len(mat.shape) == 3:
            if mat.shape[2] == 1: return mat
            if mat.shape[2] == 3: return cv.cvtColor(mat, cv.COLOR_BGR2GRAY)
    elif mat.dtype == np.float64:
        if len(mat.shape) == 2 or len(mat.shape) == 3 and mat.shape[2] == 1:
            return (mat / (np.max(mat) / 255)).astype(np.uint8)
    raise ValueError(...)

`cv.cvtColor(..., COLOR_BGR2GRAY)` on an `(h, w, 3)` array yields an
`(h, w)` uint8 array; `.astype(np.uint8)` keeps the shape and changes the
dtype. -/
def matToGrayscale (m : Mat) : Except GrayscaleError Mat :=
  match m.dtype, m.shape with
  | .u8, .twoD h w => .ok ⟨.u8, .twoD h w⟩
  | .u8, .threeD h w c =>
      if c = 1 then .ok ⟨.u8, .threeD h w 1⟩
      else if c = 3 then .ok ⟨.u8, .twoD h w⟩
      else .error .unsupportedImageType
  | .f64, .twoD h w => .ok ⟨.u8, .twoD h w⟩
  | .f64, .threeD h w c =>
      if c = 1 then .ok ⟨.u8, .threeD h w 1⟩
      else .error .unsupportedImageType
  | _, _ => .error .unsupportedImageType

/-- A shape with 1 or 3 channels (a 2-D array counts as 1 channel). -/
def oneOrThreeChannels : Shape → Prop
  | .twoD _ _ => True
  | .threeD _ _ c => c = 1 ∨ c = 3

/-- A single-channel image: a 2-D array or a 3-D array with one channel. -/
def oneChannel : Shape → Prop
  | .twoD _ _ => True
  | .threeD _ _ c => c = 1

/-- The inputs the claim says the Grayscale Normalizer accepts: 8-bit with
1 or 3 channels, or 64-bit float with 1 effective channel. -/
def acceptedInput (m : Mat) : Prop :=
  (m.dtype = .u8 ∧ oneOrThreeChannels m.shape) ∨
  (m.dtype = .f64 ∧ oneChannel m.shape)

/-- An 8-bit input with 1 or 3 channels. -/
def acceptedU8 (m : Mat) : Prop :=
  m.dtype = .u8 ∧ oneOrThreeChannels m.shape

/-- A conversion result that returned an image rather than raising. -/
def convOk (r : Except GrayscaleError Mat) : Prop :=
  ∃ g, r = Except.ok g

/-- The height and width of an image, ignoring the channel dimension. -/
def dims : Shape → ℕ × ℕ
  | .twoD h w => (h, w)
  | .threeD h w _ => (h, w)

/-! ### The float normalization path and its division by zero

`matNormalized = mat / (np.max(mat) / np.float64(255))` is computed in
doubles; for an all-zero image `np.max(mat)` is `0.0` and each pixel
becomes `0.0 / 0.0 = NaN`.  We model the pixel data of a float image as a
list of rationals and the computation with the NaN-aware `FVal`
arithmetic. -/

open Solarization in
/-- numpy's `np.max` over the pixel list (the images fed to this path are
nonempty; for an empty list the default is irrelevant). -/
def npMax (pixels : List ℚ) : ℚ :=
  pixels.max?.getD 0

open Solarization in
/-- The normalization `mat / (np.max(mat) / np.float64(255))` of
`matToGrayscale`'s float64 branch, pixel by pixel, in NaN-aware float
arithmetic. -/
def normalizePixels (pixels : List ℚ) : List FVal :=
  pixels.map fun v => fdiv (some v) (fdiv (some (npMax pixels)) (some 255))

/-! ### Gradient phase folding (`matGradient` / claim C9)

`cv.phase(dx, dy)` returns the full-circle angle in `[0, 2π)`; folding by
`phase mod π` maps it to `[0, π)`. -/

noncomputable section

open Real

/-- Folding a phase by `p mod π`, i.e. `p - π * ⌊p / π⌋`. -/
def foldPhase (p : ℝ) : ℝ :=
  p - π * ⌊p / π⌋

/-! ### Orientation histogram (`GradientHistogramWidget._updateHistogram`) -/

/-- Translation of `np.linspace(a, b, n)`: `n` evenly spaced samples from
`a` to `b`, both endpoints included (`n = 1` yields `[a]`, `n = 0` yields
`[]`). -/
def linspace (a b : ℝ) (n : ℕ) : List ℝ :=
  if n ≤ 1 then List.replicate n a
  else (List.range n).map fun i : ℕ => a + (b - a) * (i : ℝ) / ((n : ℝ) - 1)

/-- A gradient field as a list of per-pixel `(magnitude, phase)` pairs. -/
abbrev Gradient : Type := List (ℝ × ℝ)

/-- The un-normalized weight at one sample angle, from

    angleDeltas = np.cos(self._gradientPhase - angle)
    sums[i] = np.sum(np.abs(angleDeltas * self._gradientMagnitude))
-/
def histWeight (grad : Gradient) (angle : ℝ) : ℝ :=
  (grad.map fun mp => |Real.cos (mp.2 - angle) * mp.1|).sum

/-- The list of un-normalized weights, one per angle in
`np.linspace(0, np.pi, bins)`. -/
def histWeights (grad : Gradient) (bins : ℕ) : List ℝ :=
  (linspace 0 π bins).map (histWeight grad)

/-- The normalized histogram: `sums /= sums.sum()`. -/
def histNormalized (grad : Gradient) (bins : ℕ) : List ℝ :=
  (histWeights grad bins).map fun s => s / (histWeights grad bins).sum

/-- The weight formula as the specification states it:
`weight(a) = Σ over all pixels of |cos(P - a)| · M`. -/
def specWeight (grad : Gradient) (angle : ℝ) : ℝ :=
  (grad.map fun mp => |Real.cos (mp.2 - angle)| * mp.1).sum

/-- The angle samples as the claim states them: `angle_i = i·π/n` for
`i ∈ [0, n)`. -/
def specAngles (n : ℕ) : List ℝ :=
  (List.range n).map fun i : ℕ => (i : ℝ) * π / (n : ℝ)

/-! ### The library cosine as actually computed

`np.cos(self._gradientPhase - angle)` is evaluated in IEEE double
precision.  The zeros of the cosine are odd multiples of π/2, all
irrational, and no double is close enough to one of them for the rounded
cosine to be exactly ±0.0 (the nearest double to π/2 already has cosine
≈ 6.12e-17, and worst cases of argument reduction still leave ≈ 1e-19);
so the cosine the program computes at a double argument is never exactly
zero.  `FCos` packages a library cosine together with this property; the
identities of the weight formula that do not depend on cosine values are
proved against the exact `Real.cos` above, while the division by
`sums.sum()` depends on exactly this non-vanishing. -/
structure FCos where
  eval : ℝ → ℝ
  ne_zero : ∀ x, eval x ≠ 0

/-- The un-normalized weight at one sample angle,

    sums[i] = np.sum(np.abs(np.cos(phase - angle) * magnitude))

with the cosine as the library computes it. -/
def histWeightF (c : FCos) (grad : Gradient) (angle : ℝ) : ℝ :=
  (grad.map fun mp => |c.eval (mp.2 - angle) * mp.1|).sum

/-- The list of un-normalized weights over `np.linspace(0, np.pi, bins)`,
with the cosine as the library computes it. -/
def histWeightsF (c : FCos) (grad : Gradient) (bins : ℕ) : List ℝ :=
  (linspace 0 π bins).map (histWeightF c grad)

/-- The normalized histogram `sums /= sums.sum()`, with the cosine as the
library computes it. -/
def histNormalizedF (c : FCos) (grad : Gradient) (bins : ℕ) : List ℝ :=
  (histWeightsF c grad bins).map fun s => s / (histWeightsF c grad bins).sum

end

end OrientationHistograms

/-! ## Claim theorems -/

open Solarization OrientationHistograms

/-- C3 (counterexample): with `--interactive --low 0 --high 0` the claim
requires exit status 1 (interactive combined with low/high is not exactly
one mode), but the source's validation lets the program proceed. -/
theorem c3_counterexample :
    ¬ exactlyOneMode ⟨true, some 0, some 0⟩ ∧
    validateArgs ⟨true, some 0, some 0⟩ = none := by
  decide

/-- C3 (amended): the solarization CLI exits with status 1 (after a stderr
message, before any window is shown) exactly when either it is
non-interactive and low or high is missing, or it is interactive and low
is given without high; in particular `--interactive` together with both
`--low` and `--high`, or with `--high` alone, is accepted. -/
theorem c3_exit_condition (a : Args) :
    validateArgs a =
      if (a.interactive = false ∧ (a.low = none ∨ a.high = none)) ∨
         (a.interactive = true ∧ a.low ≠ none ∧ a.high = none)
      then some 1 else none := by
  obtain ⟨i, l, h⟩ := a
  cases i <;> cases l <;> cases h <;> simp [validateArgs]

/-- C5 (code_bug evidence): on an all-zero float64 image the normalization
`mat / (np.max(mat) / 255)` divides every pixel by zero: every output
sample is NaN (`none` in the float model), not the guarded all-zero
output the claim describes. -/
theorem c5_unguarded_div_zero :
    normalizePixels [0, 0, 0, 0] = [none, none, none, none] := by
  simp [normalizePixels, npMax, Solarization.fdiv]

/-- C8: the float-semantics tone-curve fit never divides by zero (the
`dx == 0` guard substitutes 0.001), so for every pair of control points --
in particular for `minX = maxX` -- the fitted curve evaluates to a finite
value at every x, and that value is exactly the one given by the claimed
closed-form coefficients computed by `fitToneCurve`. -/
theorem c8_fit_finite (minX minY maxX maxY x : ℚ) :
    evalCurveF (fitToneCurveF minX minY maxX maxY) x =
      some (evalCurve (fitToneCurve minX minY maxX maxY) x) := by
  unfold evalCurveF fitToneCurveF evalCurve fitToneCurve
  by_cases h : maxX - minX = 0 <;>
    simp [h, fdiv, fadd, fsub, fmul, pow_eq_zero_iff, sub_eq_zero]

/-- C10: for distinct control-point abscissas the fitted cubic
interpolates both control points exactly and takes the mid ordinate at
the inflection point x0. -/
theorem c10_interpolation (minX minY maxX maxY : ℚ) (h : minX ≠ maxX) :
    evalCurve (fitToneCurve minX minY maxX maxY) minX = minY ∧
    evalCurve (fitToneCurve minX minY maxX maxY) maxX = maxY ∧
    evalCurve (fitToneCurve minX minY maxX maxY) ((minX + maxX) / 2) =
      (minY + maxY) / 2 := by
  have hdx : maxX - minX ≠ 0 := sub_ne_zero.mpr (Ne.symm h)
  unfold evalCurve fitToneCurve
  simp only [if_neg hdx]
  refine ⟨?_, ?_, ?_⟩ <;> field_simp <;> ring

/-- C1 (counterexample): for control points (100, 200) and (150, 50) the
fitted curve gives f(0) = -4000; the committed transform stores the numpy
uint8 cast 96 (wrap-around), while the claimed clamp(round(f), 0, 255)
would give 0. -/
theorem c1_counterexample :
    applySolarization 100 200 150 50 0 = 96 ∧
    specPixel 100 200 150 50 0 = 0 ∧
    applySolarization 100 200 150 50 0 ≠ specPixel 100 200 150 50 0 := by
  have he : evalCurve (fitToneCurve 100 200 150 50) 0 = -4000 := by
    norm_num [evalCurve, fitToneCurve]
  have hc : ⌈(-4000 : ℚ)⌉ = (-4000 : ℤ) := by
    rw [show ((-4000 : ℚ)) = ((-4000 : ℤ) : ℚ) by norm_num, Int.ceil_intCast]
  refine ⟨?_, ?_, ?_⟩ <;>
    norm_num [applySolarization, specPixel, castU8, qtrunc, he, round_eq, hc]

/-- C1 (amended): the per-pixel transform applied on commit is numpy's
uint8 cast of f(input): truncation toward zero followed by reduction
modulo 256. The result always lies in [0, 256), and it agrees with the
claimed clamp(round(.), 0, 255) whenever f(input) is an integer already in
[0, 255]; out-of-range values wrap around instead of clamping. -/
theorem c1_cast_semantics (minX minY maxX maxY v : ℚ) :
    0 ≤ applySolarization minX minY maxX maxY v ∧
    applySolarization minX minY maxX maxY v < 256 ∧
    applySolarization minX minY maxX maxY v =
      qtrunc (evalCurve (fitToneCurve minX minY maxX maxY) v) % 256 ∧
    (∀ k : ℤ, 0 ≤ k → k ≤ 255 →
      evalCurve (fitToneCurve minX minY maxX maxY) v = (k : ℚ) →
      applySolarization minX minY maxX maxY v = k) := by
  unfold applySolarization castU8
  refine ⟨Int.emod_nonneg _ (by norm_num), Int.emod_lt_of_pos _ (by norm_num), rfl, ?_⟩
  intro k hk0 hk255 hek
  rw [hek]
  have ht : qtrunc (k : ℚ) = k := by
    unfold qtrunc
    rw [if_pos (by exact_mod_cast hk0), Int.floor_intCast]
  rw [ht, Int.emod_eq_of_lt hk0 (by omega)]

/-- C1 (witness for the amended theorem): with control points (0, 0) and
(255, 255) the curve takes the integer value 0 at input 0, and the
committed transform maps the pixel to 0. -/
theorem c1_cast_semantics_witness :
    applySolarization 0 0 255 255 0 = 0 := by
  have he : evalCurve (fitToneCurve 0 0 255 255) 0 = ((0 : ℤ) : ℚ) := by
    norm_num [evalCurve, fitToneCurve]
  exact (c1_cast_semantics 0 0 255 255 0).2.2.2 0 (by norm_num) (by norm_num) he

/-- C10 (witness): the symmetric control points (64, 64) and (192, 192)
give a curve through both points with f(128) = 128. -/
theorem c10_interpolation_witness :
    evalCurve (fitToneCurve 64 64 192 192) 64 = 64 ∧
    evalCurve (fitToneCurve 64 64 192 192) 192 = 192 ∧
    evalCurve (fitToneCurve 64 64 192 192) ((64 + 192) / 2) = (64 + 192) / 2 :=
  c10_interpolation 64 64 192 192 (by norm_num)

/-- C4: the Grayscale Normalizer succeeds exactly on 8-bit inputs with 1
or 3 channels and on 64-bit float inputs with 1 effective channel, and on
every 8-bit 1- or 3-channel input it returns a 1-channel 8-bit image of
the same height and width; every other dtype/shape combination yields the
`UnsupportedImageType` error. -/
theorem c4_grayscale (m : Mat) :
    (convOk (matToGrayscale m) ↔ acceptedInput m) ∧
    (acceptedU8 m →
      ∃ g, matToGrayscale m = Except.ok g ∧ g.dtype = Dtype.u8 ∧
        oneChannel g.shape ∧ dims g.shape = dims m.shape) := by
  obtain ⟨d, s⟩ := m
  cases d <;> cases s <;>
    simp only [matToGrayscale, convOk, acceptedInput, acceptedU8,
               oneOrThreeChannels, oneChannel, dims] <;>
    (try split_ifs) <;> simp_all

/-- C4 (witness): a 4x5 3-channel 8-bit image converts to a 4x5
single-channel 8-bit image. -/
theorem c4_grayscale_witness :
    acceptedU8 ⟨Dtype.u8, Shape.threeD 4 5 3⟩ ∧
    ∃ g, matToGrayscale ⟨Dtype.u8, Shape.threeD 4 5 3⟩ = Except.ok g ∧
      g.dtype = Dtype.u8 ∧ oneChannel g.shape ∧
      dims g.shape = dims (Shape.threeD 4 5 3) :=
  ⟨⟨rfl, Or.inr rfl⟩, (c4_grayscale ⟨Dtype.u8, Shape.threeD 4 5 3⟩).2 ⟨rfl, Or.inr rfl⟩⟩

theorem linspace_length (a b : ℝ) (n : ℕ) : (linspace a b n).length = n := by
  unfold linspace
  split
  · exact List.length_replicate n a
  · rw [List.length_map, List.length_range]

theorem linspace_pi_two : linspace 0 Real.pi 2 = [0, Real.pi] := by
  unfold linspace
  norm_num [List.range_succ]

/-- C2 (counterexample): for bin count 2 the code samples the angles
[0, π] (np.linspace includes the right endpoint), while the claim's
formula angle_i = i·π/n gives [0, π/2]. -/
theorem c2_counterexample :
    linspace 0 Real.pi 2 = [0, Real.pi] ∧
    specAngles 2 = [0, Real.pi / 2] ∧
    linspace 0 Real.pi 2 ≠ specAngles 2 := by
  have h2 : specAngles 2 = [0, Real.pi / 2] := by
    unfold specAngles
    norm_num [List.range_succ]
  refine ⟨linspace_pi_two, h2, ?_⟩
  intro h
  rw [linspace_pi_two, h2] at h
  simp only [List.cons.injEq, and_true] at h
  have := Real.pi_pos
  linarith [h.2]

/-- C2 (amended): for every bin count n ≥ 2 the histogram evaluates its
weights at the n angle samples angle_i = i·π/(n-1) for i in [0, n), i.e.
evenly spaced over [0, π] with BOTH endpoints included (n = 1 yields the
single sample 0). -/
theorem c2_angles (n : ℕ) (h : 2 ≤ n) :
    linspace 0 Real.pi n =
      (List.range n).map fun i : ℕ => (i : ℝ) * Real.pi / ((n : ℝ) - 1) := by
  unfold linspace
  rw [if_neg (by omega)]
  congr 1
  funext i
  ring

/-- C2 (witness for the amended theorem): at n = 2 the samples are
0·π/1 and 1·π/1. -/
theorem c2_angles_witness :
    linspace 0 Real.pi 2 =
      (List.range 2).map fun i : ℕ => (i : ℝ) * Real.pi / (((2 : ℕ) : ℝ) - 1) :=
  c2_angles 2 (by norm_num)

/-- C6: given non-negative magnitudes, the computed weight
Σ |cos(P - a) · M| equals the specified weight Σ |cos(P - a)| · M. -/
theorem c6_weight_formula (grad : Gradient) (angle : ℝ)
    (h : ∀ mp ∈ grad, 0 ≤ mp.1) :
    histWeight grad angle = specWeight grad angle := by
  unfold histWeight specWeight
  induction grad with
  | nil => rfl
  | cons mp rest ih =>
      simp only [List.map_cons, List.sum_cons]
      rw [abs_mul, abs_of_nonneg (h mp (List.mem_cons_self mp rest)),
          ih fun q hq => h q (List.mem_cons_of_mem mp hq)]

/-- C6 (witness): a single pixel with magnitude 1 and phase 0, sampled at
angle 0. -/
theorem c6_weight_formula_witness :
    histWeight [((1 : ℝ), 0)] 0 = specWeight [((1 : ℝ), 0)] 0 :=
  c6_weight_formula [((1 : ℝ), 0)] 0 (by
    intro mp hmp
    simp only [List.mem_singleton] at hmp
    subst hmp
    norm_num)

theorem abs_cos_sub_int_mul_pi (x : ℝ) (k : ℤ) :
    |Real.cos (x - (k : ℝ) * Real.pi)| = |Real.cos x| := by
  rw [Real.cos_sub, Real.sin_int_mul_pi, mul_zero, add_zero, abs_mul,
      Real.abs_cos_int_mul_pi, mul_one]

/-- C9: folding every phase by p mod π before building the histogram
leaves every weight unchanged, because |cos| has period π. -/
theorem c9_fold_invariant (grad : Gradient) (angle : ℝ)
    (_h : ∀ mp ∈ grad, 0 ≤ mp.1) :
    histWeight (grad.map fun mp => (mp.1, foldPhase mp.2)) angle =
      histWeight grad angle := by
  unfold histWeight foldPhase
  rw [List.map_map]
  refine congrArg List.sum (List.map_congr_left ?_)
  intro mp _
  simp only [Function.comp_apply]
  rw [abs_mul, abs_mul]
  congr 1
  have hrw : mp.2 - Real.pi * (⌊mp.2 / Real.pi⌋ : ℝ) - angle
      = (mp.2 - angle) - (⌊mp.2 / Real.pi⌋ : ℝ) * Real.pi := by ring
  rw [hrw, abs_cos_sub_int_mul_pi]

/-- C9 (witness): a single pixel with magnitude 1 and phase 4 (which folds
to 4 - π), sampled at angle 0. -/
theorem c9_fold_invariant_witness :
    histWeight ([((1 : ℝ), 4)].map fun mp => (mp.1, foldPhase mp.2)) 0 =
      histWeight [((1 : ℝ), 4)] 0 :=
  c9_fold_invariant [((1 : ℝ), 4)] 0 (by
    intro mp hmp
    simp only [List.mem_singleton] at hmp
    subst hmp
    norm_num)

theorem histWeightF_nonneg (c : FCos) (grad : Gradient) (angle : ℝ) :
    0 ≤ histWeightF c grad angle :=
  List.sum_nonneg (by
    intro x hx
    simp only [histWeightF, List.mem_map] at hx
    obtain ⟨mp, _, rfl⟩ := hx
    exact abs_nonneg _)

theorem histWeightF_pos (c : FCos) (grad : Gradient) (angle : ℝ)
    (h : ∃ mp ∈ grad, mp.1 ≠ 0) : 0 < histWeightF c grad angle := by
  obtain ⟨mp, hmem, hm⟩ := h
  have hterm : 0 < |c.eval (mp.2 - angle) * mp.1| :=
    abs_pos.mpr (mul_ne_zero (c.ne_zero _) hm)
  have hle : |c.eval (mp.2 - angle) * mp.1| ≤ histWeightF c grad angle := by
    unfold histWeightF
    refine List.single_le_sum ?_ _
      (List.mem_map_of_mem (fun q => |c.eval (q.2 - angle) * q.1|) hmem)
    intro x hx
    simp only [List.mem_map] at hx
    obtain ⟨q, _, rfl⟩ := hx
    exact abs_nonneg _
  linarith

theorem histWeightsF_sum_pos (c : FCos) (grad : Gradient) (bins : ℕ)
    (h1 : 1 ≤ bins) (h : ∃ mp ∈ grad, mp.1 ≠ 0) :
    0 < (histWeightsF c grad bins).sum := by
  have hne : linspace 0 Real.pi bins ≠ [] := by
    intro hnil
    have hlen := linspace_length 0 Real.pi bins
    rw [hnil] at hlen
    simp at hlen
    omega
  obtain ⟨a, ha⟩ := List.exists_mem_of_ne_nil _ hne
  have hpos := histWeightF_pos c grad a h
  have hle : histWeightF c grad a ≤ (histWeightsF c grad bins).sum := by
    unfold histWeightsF
    refine List.single_le_sum ?_ _ (List.mem_map_of_mem (histWeightF c grad) ha)
    intro x hx
    simp only [List.mem_map] at hx
    obtain ⟨angle, _, rfl⟩ := hx
    exact histWeightF_nonneg c grad angle
  linarith

/-- C7: for every library cosine (which, on doubles, never returns exactly
zero), every gradient field with at least one nonzero magnitude sample and
every bin count n ≥ 1, the normalized histogram is a sequence of n
non-negative values summing exactly to 1: the nonzero magnitude together
with the non-vanishing cosine makes every sampled weight positive, so the
division `sums /= sums.sum()` is by a positive total. -/
theorem c7_normalized_sum_one (c : FCos) (grad : Gradient) (bins : ℕ)
    (h1 : 1 ≤ bins) (h2 : ∃ mp ∈ grad, mp.1 ≠ 0) :
    (histNormalizedF c grad bins).length = bins ∧
    (∀ v ∈ histNormalizedF c grad bins, 0 ≤ v) ∧
    (histNormalizedF c grad bins).sum = 1 := by
  have hT := histWeightsF_sum_pos c grad bins h1 h2
  refine ⟨?_, ?_, ?_⟩
  · unfold histNormalizedF histWeightsF
    rw [List.length_map, List.length_map, linspace_length]
  · intro v hv
    unfold histNormalizedF at hv
    simp only [List.mem_map] at hv
    obtain ⟨s, hs, rfl⟩ := hv
    have hs0 : 0 ≤ s := by
      simp only [histWeightsF, List.mem_map] at hs
      obtain ⟨angle, _, rfl⟩ := hs
      exact histWeightF_nonneg c grad angle
    exact div_nonneg hs0 (le_of_lt hT)
  · unfold histNormalizedF
    rw [show (fun s => s / (histWeightsF c grad bins).sum) =
          fun s => id s * ((histWeightsF c grad bins).sum)⁻¹ from
        funext fun s => div_eq_mul_inv s _]
    rw [List.sum_map_mul_right, List.map_id]
    exact mul_inv_cancel₀ (ne_of_gt hT)

/-- C7 (witness): a concrete never-zero cosine, a single pixel with
magnitude 1 and phase 0, and bin count 1. -/
theorem c7_normalized_sum_one_witness :
    (histNormalizedF ⟨fun _ => 1, fun _ => one_ne_zero⟩ [((1 : ℝ), 0)] 1).length = 1 ∧
    (∀ v ∈ histNormalizedF ⟨fun _ => 1, fun _ => one_ne_zero⟩ [((1 : ℝ), 0)] 1, 0 ≤ v) ∧
    (histNormalizedF ⟨fun _ => 1, fun _ => one_ne_zero⟩ [((1 : ℝ), 0)] 1).sum = 1 :=
  c7_normalized_sum_one ⟨fun _ => 1, fun _ => one_ne_zero⟩ [((1 : ℝ), 0)] 1
    (by norm_num) ⟨(1, 0), List.mem_singleton.mpr rfl, by norm_num⟩
